import Mathlib

/-!
# understandingLinux: three C teaching programs

Shallow embedding of

* `src/memoryAllocation/memory_alloc.c` (`main`: allocate, fill, print),
* `src/systemInfo/SystemInfo.c` (`main`: `uname` and four `printf`s),
* `src/timeFunctions/Clock.c` (`func_name`: the keypress wait).

Conventions.  A C `int` is a Lean `Int` in `[INT_MIN, INT_MAX]`; every signed
addition the programs perform goes through `wrap32`, and its mathematical
(unwrapped) result is recorded in the ghost trace `arith`.  `size_t` is an
unsigned 64 bit number.  Library calls whose result is decided by the
environment (`malloc`, `uname`, `getchar`) take that result as a parameter.
Loops that C does not bound syntactically run on fuel: `none` means the fuel
ran out, and the theorems show how much fuel is enough.
-/

namespace MemoryAlloc

/-! ## Machine integers -/

def INT_MIN : Int := -2147483648

def INT_MAX : Int := 2147483647

/-- Number of values of `size_t` (64 bit). -/
def SIZE_MOD : Nat := 18446744073709551616

/-- Value of `sizeof(int)`. -/
def sizeofInt : Nat := 4

/-- Reduction of a mathematical result to the 32 bit two's complement range. -/
def wrap32 (x : Int) : Int := (x + 2147483648) % 4294967296 - 2147483648

/-- Conversion of an `int` to `size_t`. -/
def toSizeT (x : Int) : Nat := (x % 18446744073709551616).toNat

/-- The argument `num*sizeof(int)` of `malloc`, computed in `size_t`. -/
def mallocArg (num : Int) : Nat := (toSizeT num * sizeofInt) % SIZE_MOD

/-! ## Storage and process state -/

/-- Storage as seen through `ptr`: the `int` cell at signed offset `i` from
`ptr`.  The source dereferences `ptr + i` without any check, so a cell is
addressed by any offset; only the offsets inside the block stand for storage
the program owns, and the traces `stores` and `loads` record which offsets a
run touches. -/
abbrev Memory := Int → Int

/-- State of the process while the two loops run. -/
structure Proc where
  stdout : List String
  cells : Memory
  stores : List (Int × Int)
  loads : List Int
  arith : List Int

/-- The unchecked write `*(ptr+i) = v`. -/
def storeCell (m : Memory) (i v : Int) : Memory :=
  fun j => if j = i then v else m j

/-- The unchecked read `ptr[i]`. -/
def loadCell (m : Memory) (i : Int) : Int := m i

/-- Body of the first loop: `*(ptr+i)=i+1;`. -/
def fillBody (i : Int) (s : Proc) : Proc :=
  { s with
    cells := storeCell s.cells i (wrap32 (i + 1))
    stores := s.stores ++ [(i, wrap32 (i + 1))]
    arith := s.arith ++ [i + 1] }

/-- Body of the second loop: `printf("%d, ",ptr[i]);`. -/
def printBody (i : Int) (s : Proc) : Proc :=
  { s with
    stdout := s.stdout ++ [toString (loadCell s.cells i) ++ ", "]
    loads := s.loads ++ [i] }

/-- The loop `for(int i=...; i<num; ++i) body`, started at counter `i`.  One
unit of fuel is spent on every evaluation of the condition `i<num`. -/
def forLoop (num : Int) (body : Int → Proc → Proc) : Nat → Int → Proc → Option Proc
  | 0, _, _ => none
  | fuel + 1, i, s =>
    if i < num then
      let s1 := body i s
      forLoop num body fuel (wrap32 (i + 1)) { s1 with arith := s1.arith ++ [i + 1] }
    else
      some s

/-- The first `k` iterations of `forLoop` from counter `i`, with the counter
advanced in unbounded arithmetic (used to describe what `forLoop` computes). -/
def iterBody (body : Int → Proc → Proc) : Nat → Int → Proc → Proc
  | 0, _, s => s
  | k + 1, i, s =>
    let s1 := body i s
    iterBody body k (i + 1) { s1 with arith := s1.arith ++ [i + 1] }

/-- The `k` consecutive counter values `i, i+1, ...`. -/
def counters (i : Int) : Nat → List Int
  | 0 => []
  | k + 1 => i :: counters (i + 1) k

/-- What is left when the process is over. -/
structure Run where
  status : Int
  stdout : List String
  /-- Size in bytes of the block behind `ptr`; `none` when `ptr == NULL`. -/
  block : Option Nat
  /-- Storage behind `ptr`; it has a meaning only when `block` is not `none`. -/
  cells : Memory
  /-- Every write `*(ptr+i)=v` of the run as the pair `(i, v)`, in order. -/
  stores : List (Int × Int)
  /-- Index of every read `ptr[i]` of the run, in order. -/
  loads : List Int
  /-- Mathematical result of every signed addition of the run, in order. -/
  arith : List Int

/-- The function `main` of `memory_alloc.c` with the initialiser of `num` and
the answer of `malloc` as parameters.  `malloc size` is `none` for `NULL` and
otherwise the storage behind the returned pointer, with its indeterminate
initial contents.  Falling off the end of `main` is `return 0`. -/
def memory_alloc (fuel : Nat) (num : Int) (malloc : Nat → Option Memory) : Option Run :=
  let out0 : List String := ["We have " ++ toString num ++ " elements to allocate memory to\n"]
  match malloc (mallocArg num) with
  | none =>
    some
      { status := 0
        stdout := out0 ++ ["Memory allocation failed !"]
        block := none
        cells := fun _ => 0
        stores := []
        loads := []
        arith := [] }
  | some m =>
    let s0 : Proc :=
      { stdout := out0 ++ ["Memory allocation has been successful\n"]
        cells := m
        stores := []
        loads := []
        arith := [] }
    match forLoop num fillBody fuel 0 s0 with
    | none => none
    | some s1 =>
      let s2 : Proc :=
        { s1 with stdout := s1.stdout ++ ["\nInserted 8 elements in the block are as follows..\n"] }
      match forLoop num printBody fuel 0 s2 with
      | none => none
      | some s3 =>
        some
          { status := 0
            stdout := s3.stdout
            block := some (mallocArg num)
            cells := s3.cells
            stores := s3.stores
            loads := s3.loads
            arith := s3.arith }

/-- The program as written: `int num=8`. -/
def main (fuel : Nat) (malloc : Nat → Option Memory) : Option Run :=
  memory_alloc fuel 8 malloc

/-- Number of `int` slots of a block of `bytes` bytes. -/
def slotCount (bytes : Nat) : Nat := bytes / sizeofInt

/-- Contents of the first `k` slots, in index order. -/
def slots (m : Memory) (k : Nat) : List Int :=
  (List.range k).map (fun (i : Nat) => loadCell m (Int.ofNat i))

/-- The bounds test that a checked access to a buffer of `n` slots would make. -/
def inRange (n i : Int) : Bool := decide (0 ≤ i) && decide (i < n)

end MemoryAlloc

namespace SystemInfo

/-- The record `struct utsname` of `<sys/utsname.h>` on Linux. -/
structure Utsname where
  sysname : String
  nodename : String
  release : String
  version : String
  machine : String
  domainname : String

/-- Value of `EXIT_FAILURE` in `<stdlib.h>` on Linux. -/
def EXIT_FAILURE : Int := 1

/-- What is left when the process is over. -/
structure Run where
  status : Int
  stdout : List String
  stderr : List String

/-- The function `main` of `SystemInfo.c`.  `ret` is the value returned by
`uname(&buff)`, `buff` the record as the call left it, and `errText` the text
of `strerror(errno)` that `perror` appends.  Falling off the end of `main`
is `return 0`. -/
def main (ret : Int) (buff : Utsname) (errText : String) : Run :=
  if ret ≠ 0 then
    { status := EXIT_FAILURE
      stdout := []
      stderr := ["Uname doesnt return 0, So there is an error !" ++ ": " ++ errText ++ "\n"] }
  else
    { status := 0
      stdout :=
        [ "System name = " ++ buff.sysname ++ "\n",
          "System name = " ++ buff.nodename ++ "\n",
          "Release = " ++ buff.release ++ "\n",
          "Version = " ++ buff.machine ++ "\n" ]
      stderr := [] }

end SystemInfo

namespace Clock

/-- Value of `EOF` in `<stdio.h>`. -/
def EOF : Int := -1

/-- Standard input (the characters not yet read, end of file after the last
one), standard output, and the values the calls of `getchar` returned. -/
structure Console where
  stdin : List (Fin 256)
  stdout : List String
  got : List Int

/-- The call `getchar()`: the next character as an `unsigned char` converted to
`int`, or `EOF` when there is none. -/
def getchar (s : Console) : Int × Console :=
  match s.stdin with
  | [] => (EOF, { s with got := s.got ++ [EOF] })
  | c :: rest => ((c.val : Int), { s with stdin := rest, got := s.got ++ [(c.val : Int)] })

/-- The loop `for(;;){ if(getchar()) break; }`.  One unit of fuel is spent on
every call of `getchar`. -/
def waitLoop : Nat → Console → Option Console
  | 0, _ => none
  | fuel + 1, s =>
    if (getchar s).1 ≠ 0 then some (getchar s).2 else waitLoop fuel (getchar s).2

/-- The function `func_name` of `Clock.c`. -/
def func_name (fuel : Nat) (s : Console) : Option Console :=
  let s1 : Console := { s with stdout := s.stdout ++ ["Function starts \n"] }
  let s2 : Console := { s1 with stdout := s1.stdout ++ ["Press any key to stop function \n"] }
  match waitLoop fuel s2 with
  | none => none
  | some s3 => some { s3 with stdout := s3.stdout ++ ["Function ends \n"] }

end Clock

/-! # Theorems -/


namespace MemoryAlloc

/-! ## Arithmetic facts -/

theorem wrap32_of_inRange (x : Int) (h1 : INT_MIN ≤ x) (h2 : x ≤ INT_MAX) : wrap32 x = x := by
  unfold INT_MIN at h1
  unfold INT_MAX at h2
  unfold wrap32
  omega

theorem mallocArg_of_nonneg (n : Int) (h0 : 0 ≤ n) (h1 : n ≤ INT_MAX) :
    mallocArg n = 4 * n.toNat := by
  unfold INT_MAX at h1
  unfold mallocArg toSizeT sizeofInt SIZE_MOD
  omega

/-! ## The loops -/

theorem forLoop_eq_iterBody (num : Int) (body : Int → Proc → Proc) (hn : num ≤ INT_MAX) :
    ∀ (fuel : Nat) (i : Int) (s : Proc), INT_MIN ≤ i → (num - i).toNat < fuel →
      forLoop num body fuel i s = some (iterBody body (num - i).toNat i s) := by
  intro fuel
  induction fuel with
  | zero => intro i s _ h; omega
  | succ f ih =>
    intro i s hi hf
    by_cases hlt : i < num
    · have hw : wrap32 (i + 1) = i + 1 :=
        wrap32_of_inRange _ (by unfold INT_MIN at *; omega) (by omega)
      have hk : (num - i).toNat = (num - (i + 1)).toNat + 1 := by omega
      simp only [forLoop, hlt, if_true, hw]
      rw [ih (i + 1) _ (by unfold INT_MIN at *; omega) (by omega), hk]
      rfl
    · have hk : (num - i).toNat = 0 := by omega
      simp only [forLoop, hlt, if_false, hk, iterBody]

theorem forLoop_out_of_fuel (num : Int) (body : Int → Proc → Proc) (hn : num ≤ INT_MAX) :
    ∀ (fuel : Nat) (i : Int) (s : Proc), INT_MIN ≤ i → fuel ≤ (num - i).toNat →
      forLoop num body fuel i s = none := by
  intro fuel
  induction fuel with
  | zero => intro i s _ _; rfl
  | succ f ih =>
    intro i s hi hf
    have hlt : i < num := by omega
    have hw : wrap32 (i + 1) = i + 1 :=
      wrap32_of_inRange _ (by unfold INT_MIN at *; omega) (by omega)
    simp only [forLoop, hlt, if_true, hw]
    exact ih (i + 1) _ (by unfold INT_MIN at *; omega) (by omega)

theorem mem_counters (j : Int) : ∀ (k : Nat) (i : Int), j ∈ counters i k ↔ i ≤ j ∧ j < i + k := by
  intro k
  induction k with
  | zero => intro i; simp [counters]
  | succ k ih =>
    intro i
    simp only [counters, List.mem_cons, ih]
    push_cast
    omega

theorem length_counters : ∀ (k : Nat) (i : Int), (counters i k).length = k := by
  intro k
  induction k with
  | zero => intro i; rfl
  | succ k ih => intro i; simp [counters, ih]

theorem iterBody_fill : ∀ (k : Nat) (i : Int) (s : Proc),
    (iterBody fillBody k i s).stdout = s.stdout ∧
    (iterBody fillBody k i s).loads = s.loads ∧
    (iterBody fillBody k i s).stores
      = s.stores ++ (counters i k).map (fun j => (j, wrap32 (j + 1))) ∧
    (iterBody fillBody k i s).arith
      = s.arith ++ (counters i k).flatMap (fun j => [j + 1, j + 1]) ∧
    ∀ j, (iterBody fillBody k i s).cells j
      = if i ≤ j ∧ j < i + k then wrap32 (j + 1) else s.cells j := by
  intro k
  induction k with
  | zero =>
    intro i s
    refine ⟨rfl, rfl, by simp [iterBody, counters], by simp [iterBody, counters], ?_⟩
    intro j
    have : ¬ (i ≤ j ∧ j < i + ((0 : Nat) : Int)) := by omega
    simp only [iterBody, this, if_false]
  | succ k ih =>
    intro i s
    have e : iterBody fillBody (k + 1) i s
        = iterBody fillBody k (i + 1)
            { stdout := s.stdout
              cells := storeCell s.cells i (wrap32 (i + 1))
              stores := s.stores ++ [(i, wrap32 (i + 1))]
              loads := s.loads
              arith := s.arith ++ [i + 1] ++ [i + 1] } := rfl
    rw [e]
    obtain ⟨h1, h2, h3, h4, h5⟩ := ih (i + 1)
      { stdout := s.stdout
        cells := storeCell s.cells i (wrap32 (i + 1))
        stores := s.stores ++ [(i, wrap32 (i + 1))]
        loads := s.loads
        arith := s.arith ++ [i + 1] ++ [i + 1] }
    refine ⟨h1, h2, ?_, ?_, ?_⟩
    · rw [h3]; simp [counters]
    · rw [h4]; simp [counters]
    · intro j
      rw [h5]
      simp only [storeCell]
      by_cases hj : j = i
      · subst hj
        have h0 : ¬ (j + 1 ≤ j ∧ j < j + 1 + (k : Int)) := by omega
        have h' : j ≤ j ∧ j < j + ((k + 1 : Nat) : Int) := by omega
        simp [h0]
      · by_cases hr : i + 1 ≤ j ∧ j < i + 1 + (k : Int)
        · have h' : i ≤ j ∧ j < i + ((k + 1 : Nat) : Int) := by omega
          simp only [hr, h', if_true]
          simp
        · have h' : ¬ (i ≤ j ∧ j < i + ((k + 1 : Nat) : Int)) := by omega
          simp only [hr, h', hj, if_false]

theorem iterBody_print : ∀ (k : Nat) (i : Int) (s : Proc),
    (iterBody printBody k i s).cells = s.cells ∧
    (iterBody printBody k i s).stores = s.stores ∧
    (iterBody printBody k i s).loads = s.loads ++ counters i k ∧
    (iterBody printBody k i s).arith = s.arith ++ (counters i k).map (fun j => j + 1) ∧
    (iterBody printBody k i s).stdout
      = s.stdout ++ (counters i k).map (fun j => toString (s.cells j) ++ ", ") := by
  intro k
  induction k with
  | zero => intro i s; simp [iterBody, counters]
  | succ k ih =>
    intro i s
    have e : iterBody printBody (k + 1) i s
        = iterBody printBody k (i + 1)
            { stdout := s.stdout ++ [toString (loadCell s.cells i) ++ ", "]
              cells := s.cells
              stores := s.stores
              loads := s.loads ++ [i]
              arith := s.arith ++ [i + 1] } := rfl
    rw [e]
    obtain ⟨h1, h2, h3, h4, h5⟩ := ih (i + 1)
      { stdout := s.stdout ++ [toString (loadCell s.cells i) ++ ", "]
        cells := s.cells
        stores := s.stores
        loads := s.loads ++ [i]
        arith := s.arith ++ [i + 1] }
    refine ⟨h1, h2, ?_, ?_, ?_⟩
    · rw [h3]; simp [counters]
    · rw [h4]; simp [counters]
    · rw [h5]; simp [counters, loadCell]

/-! ## The whole run -/

/-- Output of a run in which `malloc` succeeds. -/
theorem memory_alloc_success (n : Int) (hmax : n ≤ INT_MAX) (malloc : Nat → Option Memory)
    (m : Memory) (hm : malloc (mallocArg n) = some m) (fuel : Nat) (hf : n.toNat < fuel) :
    ∃ r, memory_alloc fuel n malloc = some r ∧
      r.status = 0 ∧
      r.block = some (mallocArg n) ∧
      r.stdout = ["We have " ++ toString n ++ " elements to allocate memory to\n",
          "Memory allocation has been successful\n",
          "\nInserted 8 elements in the block are as follows..\n"]
        ++ (counters 0 n.toNat).map (fun j => toString (j + 1) ++ ", ") ∧
      r.stores = (counters 0 n.toNat).map (fun j => (j, j + 1)) ∧
      r.loads = counters 0 n.toNat ∧
      r.arith = (counters 0 n.toNat).flatMap (fun j => [j + 1, j + 1])
        ++ (counters 0 n.toNat).map (fun j => j + 1) ∧
      ∀ j, r.cells j = if 0 ≤ j ∧ j < n then j + 1 else m j := by
  have h0 : INT_MIN ≤ 0 := by unfold INT_MIN; omega
  have hw : ∀ j ∈ counters 0 n.toNat, wrap32 (j + 1) = j + 1 := by
    intro j hj
    rw [mem_counters] at hj
    exact wrap32_of_inRange _ (by unfold INT_MIN; omega) (by omega)
  have hcell : ∀ (c : Memory), (∀ j, c j = if 0 ≤ j ∧ j < 0 + ((n.toNat : Nat) : Int)
      then wrap32 (j + 1) else m j) → ∀ j, c j = if 0 ≤ j ∧ j < n then j + 1 else m j := by
    intro c hc j
    rw [hc j]
    by_cases hj : 0 ≤ j ∧ j < n
    · have hj' : 0 ≤ j ∧ j < 0 + ((n.toNat : Nat) : Int) := by omega
      rw [if_pos hj, if_pos hj']
      exact wrap32_of_inRange _ (by unfold INT_MIN; omega) (by omega)
    · have hj' : ¬ (0 ≤ j ∧ j < 0 + ((n.toNat : Nat) : Int)) := by omega
      rw [if_neg hj, if_neg hj']
  unfold memory_alloc
  simp only [hm]
  rw [forLoop_eq_iterBody n fillBody hmax fuel 0 _ h0 (by simpa using hf)]
  simp only
  rw [forLoop_eq_iterBody n printBody hmax fuel 0 _ h0 (by simpa using hf)]
  simp only [sub_zero]
  obtain ⟨f1, f2, f3, f4, f5⟩ := iterBody_fill n.toNat 0
    { stdout := ["We have " ++ toString n ++ " elements to allocate memory to\n"]
        ++ ["Memory allocation has been successful\n"]
      cells := m
      stores := []
      loads := []
      arith := [] }
  generalize iterBody fillBody n.toNat 0 _ = s1 at f1 f2 f3 f4 f5 ⊢
  obtain ⟨p1, p2, p3, p4, p5⟩ := iterBody_print n.toNat 0
    { s1 with stdout := s1.stdout ++ ["\nInserted 8 elements in the block are as follows..\n"] }
  generalize iterBody printBody n.toNat 0 _ = s3 at p1 p2 p3 p4 p5 ⊢
  simp only at p1 p2 p3 p4 p5
  refine ⟨_, rfl, rfl, rfl, ?_, ?_, ?_, ?_, ?_⟩
  · simp only [p5, f1, List.append_assoc, List.singleton_append, List.cons_append,
      List.nil_append, List.cons.injEq, true_and]
    apply List.map_congr_left
    intro j hj
    have hj' := (mem_counters j _ _).1 hj
    rw [hcell s1.cells f5 j, if_pos (by omega)]
  · simp only [p2, f3, List.nil_append]
    apply List.map_congr_left
    intro j hj
    rw [hw j hj]
  · simp only [p3, f2, List.nil_append]
  · simp only [p4, f4, List.nil_append]
  · intro j
    simp only [p1]
    exact hcell s1.cells f5 j

end MemoryAlloc

/-! ## memory_alloc.c: the claims -/

namespace MemoryAlloc

/-- C1. For every positive capacity `n` (an `int`), when `malloc` succeeds and
the fuel covers the `n + 1` tests of each loop, the run ends with a block of
exactly `n` slots in which slot `i` holds `i + 1` for every `0 <= i < n`; the
slots in index order are `1, 2, ..., n`, and for `n = 8` they are
`[1,2,3,4,5,6,7,8]`. -/
theorem create_fills_every_slot (n : Int) (hpos : 0 < n) (hmax : n ≤ INT_MAX)
    (malloc : Nat → Option Memory) (m : Memory) (hm : malloc (mallocArg n) = some m)
    (fuel : Nat) (hf : n.toNat < fuel) :
    ∃ r, memory_alloc fuel n malloc = some r ∧
      (∃ bytes, r.block = some bytes ∧ (slotCount bytes : Int) = n) ∧
      (∀ i, 0 ≤ i → i < n → loadCell r.cells i = i + 1) ∧
      slots r.cells n.toNat = (List.range n.toNat).map (fun (i : Nat) => Int.ofNat i + 1) ∧
      (n = 8 → slots r.cells 8 = [1, 2, 3, 4, 5, 6, 7, 8]) := by
  obtain ⟨r, hr, -, hb, -, -, -, -, hc⟩ := memory_alloc_success n hmax malloc m hm fuel hf
  have hslots : slots r.cells n.toNat = (List.range n.toNat).map (fun (i : Nat) => Int.ofNat i + 1) := by
    unfold slots loadCell
    apply List.map_congr_left
    intro i hi
    rw [List.mem_range] at hi
    have hi' : Int.ofNat i = (i : Int) := rfl
    rw [hc, if_pos (by omega)]
  refine ⟨r, hr, ⟨mallocArg n, hb, ?_⟩, ?_, hslots, ?_⟩
  · rw [mallocArg_of_nonneg n (by omega) hmax]
    unfold slotCount sizeofInt
    omega
  · intro i h0 h1
    unfold loadCell
    rw [hc, if_pos ⟨h0, h1⟩]
  · intro h8
    subst h8
    have : (8 : Int).toNat = 8 := rfl
    rw [this] at hslots
    rw [hslots]
    rfl

/-- C3. For every capacity, when `malloc` returns `NULL` the run (whatever the
fuel) ends with no block, no store, no load, no counter arithmetic, and a
standard output that is the element-count line followed by the failure
message and nothing else. -/
theorem allocation_failure_leaves_no_state (n : Int) (malloc : Nat → Option Memory)
    (hm : malloc (mallocArg n) = none) (fuel : Nat) :
    ∃ r, memory_alloc fuel n malloc = some r ∧
      r.block = none ∧ r.stores = [] ∧ r.loads = [] ∧ r.arith = [] ∧
      r.stdout = ["We have " ++ toString n ++ " elements to allocate memory to\n",
        "Memory allocation failed !"] := by
  unfold memory_alloc
  simp only [hm]
  exact ⟨_, rfl, rfl, rfl, rfl, rfl, rfl⟩

/-- C5. With capacity 0 and a `malloc` that succeeds, any positive fuel lets
the run finish with status 0 and a block of zero bytes, that is zero slots:
nothing is stored, nothing is loaded, the storage is as `malloc` left it, and
the output is the three fixed lines with no element after them. -/
theorem create_zero_is_empty_buffer (malloc : Nat → Option Memory) (m : Memory)
    (hm : malloc (mallocArg 0) = some m) (fuel : Nat) (hf : 0 < fuel) :
    ∃ r, memory_alloc fuel 0 malloc = some r ∧
      r.status = 0 ∧
      r.block = some 0 ∧ slotCount 0 = 0 ∧
      r.stores = [] ∧ r.loads = [] ∧
      (∀ j, r.cells j = m j) ∧
      r.stdout = ["We have 0 elements to allocate memory to\n",
        "Memory allocation has been successful\n",
        "\nInserted 8 elements in the block are as follows..\n"] := by
  obtain ⟨r, hr, hs, hb, ho, hst, hl, -, hc⟩ :=
    memory_alloc_success 0 (by unfold INT_MAX; omega) malloc m hm fuel (by simpa using hf)
  refine ⟨r, hr, hs, ?_, rfl, ?_, ?_, ?_, ?_⟩
  · rw [hb]; rfl
  · rw [hst]; rfl
  · rw [hl]; rfl
  · intro j
    rw [hc, if_neg (by omega)]
  · rw [ho]; rfl

/-- C9. For every capacity `n` of type `int` (positive, zero or negative) with
a successful `malloc`: each of the two loops, from any state, returns exactly
when the fuel exceeds `max(n, 0)`, so its condition is tested `max(n, 0) + 1`
times and its body runs `max(n, 0)` times; the run then holds `max(n, 0)`
stores and `max(n, 0)` loads, and every index stored to or loaded from passes
the bounds test `0 <= i < n`. -/
theorem loops_terminate_within_bounds (n : Int) (hmax : n ≤ INT_MAX)
    (malloc : Nat → Option Memory) (m : Memory) (hm : malloc (mallocArg n) = some m) :
    (∀ fuel s, (max n 0).toNat < fuel →
      (forLoop n fillBody fuel 0 s).isSome = true ∧
      (forLoop n printBody fuel 0 s).isSome = true) ∧
    (∀ fuel s, fuel ≤ (max n 0).toNat →
      forLoop n fillBody fuel 0 s = none ∧ forLoop n printBody fuel 0 s = none) ∧
    (∀ fuel, (max n 0).toNat < fuel →
      ∃ r, memory_alloc fuel n malloc = some r ∧
        (r.stores.length : Int) = max n 0 ∧
        (r.loads.length : Int) = max n 0 ∧
        (∀ p ∈ r.stores, inRange n p.1 = true) ∧
        (∀ i ∈ r.loads, inRange n i = true)) := by
  have h0 : INT_MIN ≤ 0 := by unfold INT_MIN; omega
  have hk : (max n 0).toNat = n.toNat := by omega
  have hk' : ((n.toNat : Nat) : Int) = max n 0 := by omega
  rw [hk]
  refine ⟨?_, ?_, ?_⟩
  · intro fuel s hf
    rw [forLoop_eq_iterBody n fillBody hmax fuel 0 s h0 (by simpa using hf),
      forLoop_eq_iterBody n printBody hmax fuel 0 s h0 (by simpa using hf)]
    exact ⟨rfl, rfl⟩
  · intro fuel s hf
    exact ⟨forLoop_out_of_fuel n fillBody hmax fuel 0 s h0 (by simpa using hf),
      forLoop_out_of_fuel n printBody hmax fuel 0 s h0 (by simpa using hf)⟩
  · intro fuel hf
    obtain ⟨r, hr, -, -, -, hst, hl, -, -⟩ := memory_alloc_success n hmax malloc m hm fuel hf
    refine ⟨r, hr, ?_, ?_, ?_, ?_⟩
    · rw [hst, List.length_map, length_counters, hk']
    · rw [hl, length_counters, hk']
    · intro p hp
      rw [hst, List.mem_map] at hp
      obtain ⟨j, hj, rfl⟩ := hp
      rw [mem_counters] at hj
      simp only [inRange, Bool.and_eq_true, decide_eq_true_eq]
      omega
    · intro i hi
      rw [hl, mem_counters] at hi
      simp only [inRange, Bool.and_eq_true, decide_eq_true_eq]
      omega

/-- C1 at the capacity of the source, `num = 8`, with storage that held zeros. -/
theorem create_fills_every_slot_witness :
    ∃ r, memory_alloc 9 8 (fun _ => some (fun _ => 0)) = some r ∧
      slots r.cells 8 = [1, 2, 3, 4, 5, 6, 7, 8] := by
  obtain ⟨r, hr, -, -, -, h8⟩ :=
    create_fills_every_slot 8 (by decide) (by decide) (fun _ => some (fun _ => 0))
      (fun _ => 0) rfl 9 (by decide)
  exact ⟨r, hr, h8 rfl⟩

/-- C3 at `num = 8` with a `malloc` that always returns `NULL`. -/
theorem allocation_failure_leaves_no_state_witness :
    ∃ r, memory_alloc 9 8 (fun _ => none) = some r ∧
      r.block = none ∧ r.stores = [] ∧ r.loads = [] ∧ r.arith = [] ∧
      r.stdout = ["We have " ++ toString (8 : Int) ++ " elements to allocate memory to\n",
        "Memory allocation failed !"] :=
  allocation_failure_leaves_no_state 8 (fun _ => none) rfl 9

/-- C5 with one unit of fuel and storage that held zeros. -/
theorem create_zero_is_empty_buffer_witness :
    ∃ r, memory_alloc 1 0 (fun _ => some (fun _ => 0)) = some r ∧
      r.block = some 0 ∧ r.stores = [] ∧ r.loads = [] := by
  obtain ⟨r, hr, -, hb, -, hs, hl, -, -⟩ :=
    create_zero_is_empty_buffer (fun _ => some (fun _ => 0)) (fun _ => 0) rfl 1 (by decide)
  exact ⟨r, hr, hb, hs, hl⟩

/-- C9 at the capacity of the source, `num = 8`, over storage that held zeros:
eight units of fuel are not enough for either loop and nine are, the run makes
eight stores and eight loads, and each of them passes the bounds test of a
buffer of 8 slots. -/
theorem loops_terminate_within_bounds_witness :
    (forLoop 8 fillBody 8 0 ⟨[], fun _ => 0, [], [], []⟩ = none ∧
      forLoop 8 printBody 8 0 ⟨[], fun _ => 0, [], [], []⟩ = none) ∧
    ((forLoop 8 fillBody 9 0 ⟨[], fun _ => 0, [], [], []⟩).isSome = true ∧
      (forLoop 8 printBody 9 0 ⟨[], fun _ => 0, [], [], []⟩).isSome = true) ∧
    ∃ r, memory_alloc 9 8 (fun _ => some (fun _ => 0)) = some r ∧
      r.stores.length = 8 ∧ r.loads.length = 8 ∧
      (∀ p ∈ r.stores, inRange 8 p.1 = true) ∧
      (∀ i ∈ r.loads, inRange 8 i = true) := by
  obtain ⟨hsome, hnone, hrun⟩ :=
    loops_terminate_within_bounds 8 (by decide) (fun _ => some (fun _ => 0)) (fun _ => 0) rfl
  obtain ⟨r, hr, hs, hl, hsr, hlr⟩ := hrun 9 (by decide)
  have h8 : max (8 : Int) 0 = 8 := by decide
  rw [h8] at hs hl
  exact ⟨hnone 8 _ (by decide), hsome 9 _ (by decide), r, hr, by exact_mod_cast hs,
    by exact_mod_cast hl, hsr, hlr⟩

/-- C10. For every capacity `n` with `0 < n <= INT_MAX` and a successful
`malloc`: the size `n * sizeof(int)` computed in `size_t` is the mathematical
product `n * 4`, below `2^64`; every signed addition of the run (each `i + 1`
stored and each `++i`) has a mathematical result in `[INT_MIN, INT_MAX]`, so
reducing it to 32 bits changes nothing; no such result exceeds `n`, and `n`
itself is reached; every value stored is the mathematical `i + 1`; and every
counter value used as an index is a non-negative `int`. -/
theorem no_arithmetic_wraps (n : Int) (hpos : 0 < n) (hmax : n ≤ INT_MAX)
    (malloc : Nat → Option Memory) (m : Memory) (hm : malloc (mallocArg n) = some m)
    (fuel : Nat) (hf : n.toNat < fuel) :
    ((mallocArg n : Nat) : Int) = n * 4 ∧
    n * 4 < 18446744073709551616 ∧
    toSizeT n * sizeofInt < SIZE_MOD ∧
    ∃ r, memory_alloc fuel n malloc = some r ∧
      (∀ x ∈ r.arith, INT_MIN ≤ x ∧ x ≤ INT_MAX ∧ wrap32 x = x ∧ x ≤ n) ∧
      n ∈ r.arith ∧
      (∀ p ∈ r.stores, p.2 = p.1 + 1 ∧ INT_MIN ≤ p.2 ∧ p.2 ≤ INT_MAX) ∧
      (∀ i ∈ r.loads, 0 ≤ i ∧ i < n ∧ i ≤ INT_MAX) := by
  have hmin : INT_MIN ≤ 0 := by unfold INT_MIN; omega
  refine ⟨?_, ?_, ?_, ?_⟩
  · rw [mallocArg_of_nonneg n (by omega) hmax]
    omega
  · unfold INT_MAX at hmax
    omega
  · unfold INT_MAX at hmax
    unfold toSizeT sizeofInt SIZE_MOD
    omega
  · obtain ⟨r, hr, -, -, -, hst, hl, ha, -⟩ := memory_alloc_success n hmax malloc m hm fuel hf
    have key : ∀ x ∈ r.arith, 1 ≤ x ∧ x ≤ n := by
      intro x hx
      rw [ha, List.mem_append, List.mem_flatMap, List.mem_map] at hx
      rcases hx with ⟨j, hj, hx⟩ | ⟨j, hj, hx⟩
      · rw [mem_counters] at hj
        simp only [List.mem_cons, List.mem_singleton, List.not_mem_nil, or_false, or_self] at hx
        omega
      · rw [mem_counters] at hj
        omega
    refine ⟨r, hr, ?_, ?_, ?_, ?_⟩
    · intro x hx
      obtain ⟨h1, h2⟩ := key x hx
      have hlo : INT_MIN ≤ x := by omega
      have hhi : x ≤ INT_MAX := by omega
      exact ⟨hlo, hhi, wrap32_of_inRange x hlo hhi, h2⟩
    · rw [ha, List.mem_append, List.mem_map]
      right
      exact ⟨n - 1, (mem_counters _ _ _).2 (by omega), by omega⟩
    · intro p hp
      rw [hst, List.mem_map] at hp
      obtain ⟨j, hj, rfl⟩ := hp
      rw [mem_counters] at hj
      refine ⟨rfl, ?_, ?_⟩
      · show INT_MIN ≤ j + 1
        omega
      · show j + 1 ≤ INT_MAX
        omega
    · intro i hi
      rw [hl, mem_counters] at hi
      omega

/-- C10 at the largest capacity, `n = INT_MAX`. -/
theorem no_arithmetic_wraps_witness :
    ((mallocArg 2147483647 : Nat) : Int) = 2147483647 * 4 ∧
    ∃ r, memory_alloc 2147483648 2147483647 (fun _ => some (fun _ => 0)) = some r ∧
      (2147483647 : Int) ∈ r.arith := by
  obtain ⟨h1, -, -, r, hr, -, hn, -, -⟩ :=
    no_arithmetic_wraps 2147483647 (by decide) (by decide) (fun _ => some (fun _ => 0))
      (fun _ => 0) rfl 2147483648 (by decide)
  exact ⟨h1, r, hr, hn⟩

/-- C2, the code at the failing input: with `num = 8` and `malloc` returning
`NULL`, the run ends through `exit(0)`, so the exit status is 0. -/
theorem allocation_failure_exit_status :
    (main 9 (fun _ => none)).map (fun r => (r.status, r.stdout))
      = some (0, ["We have 8 elements to allocate memory to\n", "Memory allocation failed !"]) := by
  rfl

end MemoryAlloc

/-! ## SystemInfo.c: the claims -/

namespace SystemInfo

/-- C6. Whenever `uname` returns a value other than 0, whatever it left in the
record, the process exits with the non-zero status `EXIT_FAILURE` and nothing
is written to standard output: none of the four field lines is printed. -/
theorem uname_failure_exits_nonzero (ret : Int) (hret : ret ≠ 0) (buff : Utsname)
    (errText : String) :
    (main ret buff errText).status ≠ 0 ∧
    (main ret buff errText).status = EXIT_FAILURE ∧
    (main ret buff errText).stdout = [] := by
  unfold main
  rw [if_pos hret]
  refine ⟨?_, rfl, rfl⟩
  show EXIT_FAILURE ≠ 0
  decide

/-- C6 at `uname` returning -1. -/
theorem uname_failure_exits_nonzero_witness :
    (main (-1) ⟨"Linux", "host", "6.1", "#1", "x86_64", "(none)"⟩ "Bad address").status = 1 ∧
    (main (-1) ⟨"Linux", "host", "6.1", "#1", "x86_64", "(none)"⟩ "Bad address").stdout = [] := by
  obtain ⟨-, h2, h3⟩ := uname_failure_exits_nonzero (-1) (by decide)
    ⟨"Linux", "host", "6.1", "#1", "x86_64", "(none)"⟩ "Bad address"
  exact ⟨h2, h3⟩

/-- C7. Whenever `uname` returns 0 with record `r`, standard output is exactly
four lines, each a label, one field of `r` and a newline, in the order
`sysname`, `nodename`, `release`, `machine`; the status is 0, nothing goes to
standard error, and the output is the same whatever the other fields
(`version`, `domainname`) of the record are. -/
theorem uname_success_reports_four_fields (r : Utsname) (errText : String) :
    (main 0 r errText).stdout =
      [ "System name = " ++ r.sysname ++ "\n",
        "System name = " ++ r.nodename ++ "\n",
        "Release = " ++ r.release ++ "\n",
        "Version = " ++ r.machine ++ "\n" ] ∧
    (main 0 r errText).stdout.length = 4 ∧
    (main 0 r errText).status = 0 ∧
    (main 0 r errText).stderr = [] ∧
    ∀ (v d : String),
      (main 0 { r with version := v, domainname := d } errText).stdout
        = (main 0 r errText).stdout := by
  refine ⟨rfl, rfl, rfl, rfl, ?_⟩
  intro v d
  rfl

end SystemInfo

/-! ## Clock.c: the claims -/

namespace Clock

theorem waitLoop_calls_getchar : ∀ (fuel : Nat) (s t : Console),
    waitLoop fuel s = some t → s.got.length < t.got.length := by
  intro fuel
  induction fuel with
  | zero => intro s t h; simp [waitLoop] at h
  | succ f ih =>
    intro s t h
    have hg : (getchar s).2.got.length = s.got.length + 1 := by
      unfold getchar
      cases s.stdin <;> simp
    unfold waitLoop at h
    by_cases hc : (getchar s).1 ≠ 0
    · rw [if_pos hc] at h
      cases h
      omega
    · rw [if_neg hc] at h
      have := ih _ _ h
      omega

/-- C8, counterexample: on an input stream at end of file the wait leaves the
loop with no character read (`getchar` returned `EOF`), and on the input
stream NUL, `A` it reads two characters, not one, before it leaves. -/
theorem wait_is_not_one_keypress :
    func_name 1 ⟨[], [], []⟩
      = some ⟨[], ["Function starts \n", "Press any key to stop function \n",
          "Function ends \n"], [EOF]⟩ ∧
    func_name 1 ⟨[0, 65], [], []⟩ = none ∧
    func_name 2 ⟨[0, 65], [], []⟩
      = some ⟨[], ["Function starts \n", "Press any key to stop function \n",
          "Function ends \n"], [0, 65]⟩ := by
  refine ⟨rfl, rfl, rfl⟩

/-- C8 as amended.  With fuel for at least one call of `getchar`: on every
input stream whose first character is not NUL the wait reads exactly that one
character and leaves the loop, the rest of the input untouched; on an input
stream at end of file `getchar` returns `EOF` and the loop is left with no
character read; and the loop is never left before a call of `getchar` has
returned. -/
theorem wait_ends_on_first_result (out : List String) (fuel : Nat) (hf : 0 < fuel) :
    (∀ (c : Fin 256) (rest : List (Fin 256)), c.val ≠ 0 →
      func_name fuel ⟨c :: rest, out, []⟩
        = some ⟨rest, out ++ ["Function starts \n"] ++ ["Press any key to stop function \n"]
            ++ ["Function ends \n"], [(c.val : Int)]⟩) ∧
    func_name fuel ⟨[], out, []⟩
      = some ⟨[], out ++ ["Function starts \n"] ++ ["Press any key to stop function \n"]
          ++ ["Function ends \n"], [EOF]⟩ ∧
    (∀ s t, func_name fuel s = some t → s.got.length < t.got.length) := by
  obtain ⟨f, rfl⟩ : ∃ f, fuel = f + 1 := ⟨fuel - 1, by omega⟩
  refine ⟨?_, ?_, ?_⟩
  · intro c rest hc
    have hc' : ((c.val : Nat) : Int) ≠ 0 := by exact_mod_cast hc
    simp [func_name, waitLoop, getchar, hc']
  · simp [func_name, waitLoop, getchar, EOF]
  · intro s t h
    unfold func_name at h
    simp only at h
    split at h
    · exact absurd h (by simp)
    · rename_i s3 h3
      cases h
      have hlen := waitLoop_calls_getchar _ _ _ h3
      exact hlen

/-- C8 as amended, at the input stream `A`, `B` with two units of fuel. -/
theorem wait_ends_on_first_result_witness :
    func_name 2 ⟨[65, 66], [], []⟩
      = some ⟨[66], ["Function starts \n", "Press any key to stop function \n",
          "Function ends \n"], [65]⟩ :=
  (wait_ends_on_first_result [] 2 (by decide)).1 65 [66] (by decide)

end Clock
